import Mathlib

/-!
Shallow embedding of `config_parser.py` (repository `17_var_redkin`): a lexer,
recursive-descent parser and variable-substitution resolver for a small
configuration language, together with proofs about the claims of its
specification.

Conventions of the embedding:
* Python text is modelled as `List Char` (ASCII character classes; the inputs
  exercised by the claims are ASCII).
* Python floats are modelled by `PyFloat`, the exact decimal value of the
  parsed literal (the program never performs float arithmetic: literals are
  parsed, stored, converted and compared, so the exact decimal is a faithful
  value model; IEEE-754 rounding is not modelled).
* Unbounded recursion (the resolver can loop on cyclic references, Python
  would recurse forever) is modelled with a fuel parameter; running out of
  fuel yields the distinguished error `Err.fuelOut`, so a result `.ok` means
  the Python program really terminates with that result.
* Python exceptions are modelled by `Err`: `SyntaxError` (with the line
  number embedded in its message, when the message has one), `NameError`
  (carrying the referenced variable name), and `IndexError` (raised when an
  error message indexes `tokens[pos - 1]` out of range).
-/

/-- Models a Python float produced by `float()` on a `[+-]?digits.digits`
literal: the exact decimal value `mant / 10 ^ exp`, with trailing zeros of the
fraction stripped (so equal decimal values have equal representations).
IEEE-754 rounding is not modelled; the program performs no float
arithmetic. -/
structure PyFloat where
  mant : Int
  exp : Nat
deriving DecidableEq

/-- Strips factors of 10 shared by mantissa and exponent (fuel-driven,
`fuel ≥ e` always holds at call sites). -/
def normDec : Nat → Int → Nat → PyFloat
  | 0, m, e => ⟨m, e⟩
  | _ + 1, m, 0 => ⟨m, 0⟩
  | fuel + 1, m, e + 1 =>
    if m % 10 == 0 then normDec fuel (m / 10) e else ⟨m, e + 1⟩

/-- Numeric value of a digit string (as in `float()` on the integer part). -/
def digitsVal (l : List Char) : Nat :=
  l.foldl (fun n c => 10 * n + (c.toNat - 48)) 0

/-- Models `float(num_match.group())` of `tokenize`: the value of the literal
`sgn ++ d1 ++ "." ++ d2` as an exact decimal. -/
def floatOfLit (sgn : Option Char) (d1 d2 : List Char) : PyFloat :=
  let m : Int := (digitsVal d1 * 10 ^ d2.length + digitsVal d2 : Nat)
  normDec (d2.length + 1) (if sgn == some '-' then -m else m) d2.length

/-- Errors of the pipeline (see the module docstring). -/
inductive Err where
  | syntaxError (line : Option Nat)
  | nameError (name : String)
  | indexError
  | fuelOut
deriving DecidableEq

/-- ASCII subset of Python's `str.isspace` (the claims only exercise ASCII). -/
def isSpaceChar (c : Char) : Bool :=
  c == ' ' || c == '\t' || c == '\n' || c == '\r' || c == '\x0b' || c == '\x0c'

/-- ASCII `\d` of the number regex `[+-]?\d+\.\d+`. -/
def isDigitChar (c : Char) : Bool :=
  48 ≤ c.toNat && c.toNat ≤ 57

/-- `[a-zA-Z]`, the leading class of the identifier regex. -/
def isAlphaChar (c : Char) : Bool :=
  (65 ≤ c.toNat && c.toNat ≤ 90) || (97 ≤ c.toNat && c.toNat ≤ 122)

/-- `[_a-zA-Z0-9]`, the continuation class of the identifier regex. -/
def isIdentChar (c : Char) : Bool :=
  isAlphaChar c || isDigitChar c || c.toNat == 95

/-- The single-character tokens accepted by `tokenize`: `'()[],=$;'`. -/
def isPunctChar (c : Char) : Bool :=
  c == '(' || c == ')' || c == '[' || c == ']' || c == ',' || c == '=' || c == '$' || c == ';'

/-- Python `re.match(r'^[a-zA-Z][_a-zA-Z0-9]*$', s)` as used on reference
names in `substitute_vars_in_value` (those names never contain a newline, so
the `$`-before-final-newline quirk of Python's `$` anchor is unreachable). -/
def isIdentName (s : String) : Bool :=
  match s.data with
  | [] => false
  | c :: rest => isAlphaChar c && rest.all isIdentChar

/-- Python `'.' in name`. -/
def containsDot (s : String) : Bool :=
  s.data.contains '.'

/-- Tokens of `tokenize`: Python triples `(kind, payload, line)`. The
constructor determines the kind string (`NUMBER`, `STRING`, `ID`, `VAR`,
`LIST`, `TABLE`, or the punctuation character itself). -/
inductive Token where
  | number (value : PyFloat) (line : Nat)
  | str (value : String) (line : Nat)
  | ident (value : String) (line : Nat)
  | kwVar (line : Nat)
  | kwList (line : Nat)
  | kwTable (line : Nat)
  | punct (c : Char) (line : Nat)
deriving DecidableEq

def tokLine : Token → Nat
  | .number _ l => l
  | .str _ l => l
  | .ident _ l => l
  | .kwVar l => l
  | .kwList l => l
  | .kwTable l => l
  | .punct _ l => l

/-- The parser compares token *payloads* (`self.tokens[self.pos][1]`) against
one-character strings: keyword tokens carry their word, identifier and string
tokens carry their text, punctuation tokens carry their character, and number
tokens carry a float (never equal to any string). -/
def payloadIs : Token → String → Bool
  | .number _ _, _ => false
  | .str s _, p => s == p
  | .ident s _, p => s == p
  | .kwVar _, p => "var" == p
  | .kwList _, p => "list" == p
  | .kwTable _, p => "table" == p
  | .punct c _, p => String.mk [c] == p

mutual
/-- The intermediate value tree (`ConfigValue` and its dataclasses). -/
inductive ConfigValue where
  | NumberValue (value : PyFloat)
  | StringValue (value : String) (has_vars : Bool)
  | ListValue (values : ValueSeq)
  | TableValue (items : TableItems)
  | VarRefValue (name : String)
/-- `List[ConfigValue]` of `ListValue` (a dedicated type so that all
recursion over values is structural). -/
inductive ValueSeq where
  | nil
  | cons (head : ConfigValue) (tail : ValueSeq)
/-- `Dict[str, ConfigValue]` of `TableValue`: insertion-ordered entries with
unique keys, as a Python dict. -/
inductive TableItems where
  | nil
  | cons (key : String) (value : ConfigValue) (tail : TableItems)
end

/-- `self.variables`: an insertion-ordered dict from names to values. -/
abbrev VarTable := List (String × ConfigValue)

/-- Python dict lookup `self.variables[name]` / `name in self.variables`
(keys are unique, first match). -/
def lookupVar : VarTable → String → Option ConfigValue
  | [], _ => none
  | (k', v') :: rest, k => if k' == k then some v' else lookupVar rest k

/-- Python dict assignment `self.variables[name] = value`: replaces the
binding in place when the key exists (keeping its position), appends
otherwise. -/
def setVar : VarTable → String → ConfigValue → VarTable
  | [], k, v => [(k, v)]
  | (k', v') :: rest, k, v =>
    if k' == k then (k, v) :: rest else (k', v') :: setVar rest k v

/-- Dict assignment `items[key] = value` for table literals (same
semantics as `setVar`). -/
def tableSet : TableItems → String → ConfigValue → TableItems
  | .nil, k, v => .cons k v .nil
  | .cons k' v' rest, k, v =>
    if k' == k then .cons k v rest else .cons k' v' (tableSet rest k v)

/-- `values.append(value)` of `parse_list`. -/
def seqAppend : ValueSeq → ConfigValue → ValueSeq
  | .nil, v => .cons v .nil
  | .cons h t, v => .cons h (seqAppend t v)

mutual
/-- The materialized output (`convert_value` results): float, string, list,
dict — or, through the untyped fallthrough `return value`, a raw
`ConfigValue`. -/
inductive Plain where
  | num (q : PyFloat)
  | str (s : String)
  | arr (l : PlainSeq)
  | obj (m : PlainMap)
  | raw (v : ConfigValue)
inductive PlainSeq where
  | nil
  | cons (head : Plain) (tail : PlainSeq)
inductive PlainMap where
  | nil
  | cons (key : String) (value : Plain) (tail : PlainMap)
end

namespace ConfigParser

/-- Parser/instance state: the fields of `ConfigParser` that survive a call
(`self.variables` — here `vars`, since `variables` is reserved in Lean — is
set in `__init__` and never reset by `parse`; `self.current_line` likewise).
`self.tokens`/`self.pos` are rebuilt by every `parse` call and are modelled
by explicit arguments. -/
structure PState where
  vars : VarTable
  current_line : Nat

/-- A freshly constructed `ConfigParser()`. -/
def init : PState := ⟨[], 1⟩

/-- Searches for the first occurrence of `!}}` (Python
`text.find('!}}', i)`), returning the text after it, or `none`. -/
def dropAfterBang : List Char → Option (List Char)
  | '!' :: '}' :: '}' :: rest => some rest
  | _ :: rest => dropAfterBang rest
  | [] => none

def headIs (cs : List Char) (d : Char) : Bool :=
  match cs with
  | c :: _ => c == d
  | [] => false

def head2Is (cs : List Char) (d e : Char) : Bool :=
  match cs with
  | a :: b :: _ => a == d && b == e
  | _ => false

/-- Python `re.match(r'[+-]?\d+\.\d+', text[i:])`: optional sign, a maximal
nonempty digit run, a dot, a maximal nonempty digit run. Returns the float
value and the rest of the text. -/
def matchNumber (l : List Char) : Option (PyFloat × List Char) :=
  let sgn : Option Char × List Char :=
    match l with
    | c :: rest => if c == '+' || c == '-' then (some c, rest) else (none, l)
    | [] => (none, l)
  let d1 := sgn.2.takeWhile isDigitChar
  if d1.isEmpty then none
  else
    match sgn.2.dropWhile isDigitChar with
    | '.' :: l3 =>
      let d2 := l3.takeWhile isDigitChar
      if d2.isEmpty then none
      else some (floatOfLit sgn.1 d1 d2, l3.dropWhile isDigitChar)
    | _ => none

/-- Keyword classification of an identifier
(`token_value.upper() if token_value in ['var', 'list', 'table'] else 'ID'`). -/
def identTokenFor (s : String) (line : Nat) : Token :=
  if s == "var" then .kwVar line
  else if s == "list" then .kwList line
  else if s == "table" then .kwTable line
  else .ident s line

def consTok (t : Token) (r : Except Err (List Token × Nat)) :
    Except Err (List Token × Nat) :=
  r.map (fun p => (t :: p.1, p.2))

/-- The scanning loop of `tokenize`, one fuel unit per iteration (every
iteration consumes at least one character, so the wrapper's fuel of
`length + 1` never runs out). Returns the tokens and the final
`self.current_line`. Branches, in Python's order: whitespace (only a real
`'\n'` bumps the line counter), `::` line comments (stopping *at* the
newline, which the whitespace branch then counts), `{{! ... !}}` block
comments (newlines inside are skipped *without* counting; a missing `!}}`
silently ends the scan), numbers, `@"..."` strings (the first `"` closes;
newlines inside are not counted), identifiers/keywords, punctuation,
otherwise a `SyntaxError` carrying the current line. -/
def tokenizeFuel : Nat → List Char → Nat → Except Err (List Token × Nat)
  | _, [], line => .ok ([], line)
  | 0, _ :: _, _ => .error .fuelOut
  | fuel + 1, c :: cs, line =>
    if isSpaceChar c then
      tokenizeFuel fuel cs (if c == '\n' then line + 1 else line)
    else if c == ':' && headIs cs ':' then
      match (c :: cs).dropWhile (fun a => !(a == '\n')) with
      | [] => .ok ([], line)
      | rest => tokenizeFuel fuel rest line
    else if c == '{' && head2Is cs '{' '!' then
      match dropAfterBang (c :: cs) with
      | none => .ok ([], line)
      | some rest => tokenizeFuel fuel rest line
    else
      match matchNumber (c :: cs) with
      | some (q, rest) => consTok (.number q line) (tokenizeFuel fuel rest line)
      | none =>
        if c == '@' && headIs cs '"' then
          match cs.tail.dropWhile (fun a => !(a == '"')) with
          | [] => .error (.syntaxError (some line))
          | _ :: rest2 =>
            consTok (.str (String.mk (cs.tail.takeWhile (fun a => !(a == '"')))) line)
              (tokenizeFuel fuel rest2 line)
        else if isAlphaChar c then
          consTok (identTokenFor (String.mk (c :: cs.takeWhile isIdentChar)) line)
            (tokenizeFuel fuel (cs.dropWhile isIdentChar) line)
        else if isPunctChar c then
          consTok (.punct c line) (tokenizeFuel fuel cs line)
        else .error (.syntaxError (some line))

/-- `ConfigParser.tokenize`, starting from the instance's current line. -/
def tokenize (text : String) (startLine : Nat) : Except Err (List Token × Nat) :=
  tokenizeFuel (text.data.length + 1) text.data startLine

/-- `raise SyntaxError(f'... {self.tokens[self.pos - 1][2]}')`: when the
previous-token position is past the end of the token list (which can happen
after the unchecked skip in `parse_table`'s empty branch), evaluating the
message raises `IndexError` instead. -/
def raiseAt {α : Type} : Option Nat → Except Err α
  | some l => .error (.syntaxError (some l))
  | none => .error .indexError

/-- `parse_table`'s final `')'` consumption after a non-empty `]`
(`bracketLine` is the line of the `]`, the token at `pos - 1`). -/
def parse_table_close (items : TableItems) (bracketLine : Nat) :
    List Token → Except Err (ConfigValue × List Token × Option Nat)
  | t :: rest =>
    if payloadIs t ")" then .ok (.TableValue items, rest, some (tokLine t))
    else .error (.syntaxError (some bracketLine))
  | [] => .error (.syntaxError (some bracketLine))

/-- `parse_var_reference` after its leading `$` was consumed (`prev` is the
line of that `$`). The `.`-after-name check compares the *payload* of the
next token. -/
def parse_var_reference (prev : Option Nat) :
    List Token → Except Err (ConfigValue × List Token × Option Nat)
  | .ident name nline :: rest =>
    match rest with
    | t2 :: rest2 =>
      if payloadIs t2 "." then .error (.syntaxError (some (tokLine t2)))
      else if payloadIs t2 "$" then .ok (.VarRefValue name, rest2, some (tokLine t2))
      else .error (.syntaxError (some nline))
    | [] => .error (.syntaxError (some nline))
  | t :: _ =>
    match t, prev with
    | _, p => raiseAt p
  | [] => raiseAt prev

mutual
/-- `parse_value`. Consumes the dispatching token; returns the value, the
remaining tokens and the line of the last consumed token
(`tokens[pos - 1]`, used by the caller's error messages). -/
def parse_value : Nat → List Token → Except Err (ConfigValue × List Token × Option Nat)
  | 0, _ => .error .fuelOut
  | _ + 1, [] => .error (.syntaxError none)
  | fuel + 1, t :: rest =>
    match t with
    | .number q line => .ok (.NumberValue q, rest, some line)
    | .str s line => .ok (.StringValue s (s.data.contains '$'), rest, some line)
    | .kwList line => parse_list fuel (some line) rest
    | .kwTable line => parse_table fuel (some line) rest
    | .punct '$' line => parse_var_reference (some line) rest
    | other => .error (.syntaxError (some (tokLine other)))
/-- `parse_list` after `list` was consumed (`prev` is its line). -/
def parse_list : Nat → Option Nat → List Token → Except Err (ConfigValue × List Token × Option Nat)
  | 0, _, _ => .error .fuelOut
  | _ + 1, prev, [] => raiseAt prev
  | fuel + 1, prev, t :: rest =>
    if payloadIs t "(" then parse_list_elems fuel (some (tokLine t)) ValueSeq.nil rest
    else raiseAt prev
/-- The element loop of `parse_list` (also covering the pre-loop empty-list
check and the final `)` consumption, exactly as the Python control flow
reaches them). -/
def parse_list_elems : Nat → Option Nat → ValueSeq → List Token →
    Except Err (ConfigValue × List Token × Option Nat)
  | 0, _, _, _ => .error .fuelOut
  | _ + 1, prev, _, [] => raiseAt prev
  | fuel + 1, _, acc, t :: rest =>
    if payloadIs t ")" then .ok (.ListValue acc, rest, some (tokLine t))
    else do
      let (v, toks2, prev2) ← parse_value fuel (t :: rest)
      let acc2 := seqAppend acc v
      match toks2 with
      | t2 :: rest2 =>
        if payloadIs t2 "," then parse_list_elems fuel (some (tokLine t2)) acc2 rest2
        else if payloadIs t2 ")" then .ok (.ListValue acc2, rest2, some (tokLine t2))
        else .error (.syntaxError (some (tokLine t2)))
      | [] => raiseAt prev2
/-- `parse_table` after `table` was consumed (`prev` is its line). In the
empty-table branch Python advances `pos` past the position after `]` without
checking that token (`self.pos += 1  # Пропускаем ')'`). -/
def parse_table : Nat → Option Nat → List Token → Except Err (ConfigValue × List Token × Option Nat)
  | 0, _, _ => .error .fuelOut
  | _ + 1, prev, [] => raiseAt prev
  | fuel + 1, prev, t :: rest =>
    if payloadIs t "(" then
      match rest with
      | t2 :: rest2 =>
        if payloadIs t2 "[" then
          match rest2 with
          | t3 :: rest3 =>
            if payloadIs t3 "]" then
              match rest3 with
              | t4 :: rest4 => .ok (.TableValue .nil, rest4, some (tokLine t4))
              | [] => .ok (.TableValue .nil, [], none)
            else parse_table_loop fuel (some (tokLine t2)) TableItems.nil (t3 :: rest3)
          | [] => raiseAt (some (tokLine t2))
        else raiseAt (some (tokLine t))
      | [] => raiseAt (some (tokLine t))
    else raiseAt prev
/-- The key/value loop of `parse_table` (also covering loop exit into the
`]` and `)` consumption). -/
def parse_table_loop : Nat → Option Nat → TableItems → List Token →
    Except Err (ConfigValue × List Token × Option Nat)
  | 0, _, _, _ => .error .fuelOut
  | _ + 1, prev, _, [] => raiseAt prev
  | fuel + 1, prev, items, t :: rest =>
    if payloadIs t "]" then parse_table_close items (tokLine t) rest
    else
      match t with
      | .ident key kline =>
        match rest with
        | t2 :: rest2 =>
          if payloadIs t2 "=" then do
            let (v, toks3, prev3) ← parse_value fuel rest2
            let items2 := tableSet items key v
            match toks3 with
            | t4 :: rest4 =>
              if payloadIs t4 "," then parse_table_loop fuel (some (tokLine t4)) items2 rest4
              else if payloadIs t4 "]" then parse_table_close items2 (tokLine t4) rest4
              else .error (.syntaxError (some (tokLine t4)))
            | [] => raiseAt prev3
          else .error (.syntaxError (some kline))
        | [] => .error (.syntaxError (some kline))
      | _ => raiseAt prev
end

/-- `parse_var_declaration` after its `var` keyword was consumed (`varLine`
is the line of that `var` token). The binding is stored *before* the `;`
check, as in the source. -/
def parse_var_declaration (fuel : Nat) (varLine : Nat) (toks : List Token)
    (vars : VarTable) : Except Err (VarTable × List Token) :=
  match toks with
  | .ident name nline :: rest =>
    match rest with
    | t2 :: rest2 =>
      if payloadIs t2 "=" then do
        let (v, rest3, prev3) ← parse_value fuel rest2
        let vars2 := setVar vars name v
        match rest3 with
        | t4 :: rest4 =>
          if payloadIs t4 ";" then .ok (vars2, rest4)
          else raiseAt prev3
        | [] => raiseAt prev3
      else .error (.syntaxError (some nline))
    | [] => .error (.syntaxError (some nline))
  | _ :: _ => .error (.syntaxError (some varLine))
  | [] => .error (.syntaxError (some varLine))

/-- The top-level scan of `parse`: declarations start at `var` tokens, every
other token is silently skipped. -/
def parse_loop : Nat → List Token → VarTable → Except Err VarTable
  | 0, _, _ => .error .fuelOut
  | _ + 1, [], vars => .ok vars
  | fuel + 1, .kwVar line :: rest, vars => do
    let (vars2, rest2) ← parse_var_declaration fuel line rest vars
    parse_loop fuel rest2 vars2
  | fuel + 1, _ :: rest, vars => parse_loop fuel rest vars

/-- Python `str.join`-style separator join, used by the stringification of
lists and tables. -/
def joinSep (sep : String) : List String → String
  | [] => ""
  | [s] => s
  | s :: rest => s ++ sep ++ joinSep sep rest

/-- Models `str(value.value)` for a float: the decimal rendering of the
exact value, e.g. `8080.0`, `1.5` (Python's shortest-roundtrip repr
coincides with this on non-rounding literals; no verified claim depends on
this rendering). -/
def numStr (q : PyFloat) : String :=
  let ds := Nat.toDigits 10 q.mant.natAbs
  let ds := if ds.length < q.exp + 1 then List.replicate (q.exp + 1 - ds.length) '0' ++ ds else ds
  let ip := ds.take (ds.length - q.exp)
  let fp := ds.drop (ds.length - q.exp)
  (if q.mant < 0 then "-" else "") ++ String.mk ip ++ "." ++
    (if fp.isEmpty then "0" else String.mk fp)

/-- Models Python `str` of a list of strings, `"['a', 'b']"` (naive about
quote escaping, which no claim exercises). -/
def pyStrList (l : List String) : String :=
  "[" ++ joinSep ", " (l.map (fun s => "'" ++ s ++ "'")) ++ "]"

/-- Models Python `str` of a dict from strings to strings. -/
def pyStrDict (l : List (String × String)) : String :=
  "\x7b" ++ joinSep ", " (l.map (fun p => "'" ++ p.1 ++ "': '" ++ p.2 ++ "'")) ++ "\x7d"

mutual
/-- `get_string_value`: the textual form used when substituting a value into
a string. A reference to an *absent* name renders as `"$name$"` (no error
here). Fueled because reference chasing can cycle. -/
def get_string_value : Nat → VarTable → ConfigValue → Except Err String
  | 0, _, _ => .error .fuelOut
  | _ + 1, _, .NumberValue q => .ok (numStr q)
  | _ + 1, _, .StringValue s _ => .ok s
  | fuel + 1, t, .VarRefValue n =>
    match lookupVar t n with
    | some v => get_string_value fuel t v
    | none => .ok ("$" ++ n ++ "$")
  | fuel + 1, t, .ListValue vs => do
    let parts ← get_string_seq fuel t vs
    .ok (pyStrList parts)
  | fuel + 1, t, .TableValue ts => do
    let parts ← get_string_items fuel t ts
    .ok (pyStrDict parts)
def get_string_seq : Nat → VarTable → ValueSeq → Except Err (List String)
  | 0, _, _ => .error .fuelOut
  | _ + 1, _, .nil => .ok []
  | fuel + 1, t, .cons v rest => do
    let s ← get_string_value fuel t v
    let ss ← get_string_seq fuel t rest
    .ok (s :: ss)
def get_string_items : Nat → VarTable → TableItems → Except Err (List (String × String))
  | 0, _, _ => .error .fuelOut
  | _ + 1, _, .nil => .ok []
  | fuel + 1, t, .cons k v rest => do
    let s ← get_string_value fuel t v
    let ss ← get_string_items fuel t rest
    .ok ((k, s) :: ss)
end

/-- Whether `pat` is a prefix of the text. -/
def isPrefixL : List Char → List Char → Bool
  | [], _ => true
  | _ :: _, [] => false
  | p :: ps, c :: cs => p == c && isPrefixL ps cs

/-- Python `str.replace(pat, rep)`: every non-overlapping occurrence, left
to right (fueled; the fuel of `length + 1` suffices for the nonempty
patterns the resolver uses). -/
def replaceAllL : Nat → List Char → List Char → List Char → List Char
  | 0, s, _, _ => s
  | _ + 1, [], _, _ => []
  | fuel + 1, c :: cs, pat, rep =>
    if isPrefixL pat (c :: cs) then rep ++ replaceAllL fuel ((c :: cs).drop pat.length) pat rep
    else c :: replaceAllL fuel cs pat rep

def replaceAll (s pat rep : String) : String :=
  String.mk (replaceAllL (s.data.length + 1) s.data pat.data rep.data)

/-- `[^$\n]`, the character class inside the reference pattern. -/
def refChar (c : Char) : Bool :=
  !(c == '$') && !(c == '\n')

/-- The scan of `re.findall(r'\$([^$\n]+?)\$', s)`: non-overlapping, left to
right, shortest span between two `$` with at least one `[^$\n]` character.
One fuel unit per scanning step (each consumes at least one character). -/
def findLoop : Nat → List Char → List String
  | 0, _ => []
  | _ + 1, [] => []
  | fuel + 1, '$' :: rest =>
    (match rest.dropWhile refChar with
    | '$' :: rest2 =>
      if (rest.takeWhile refChar).isEmpty then findLoop fuel (rest.dropWhile refChar)
      else String.mk (rest.takeWhile refChar) :: findLoop fuel rest2
    | other => findLoop fuel other)
  | fuel + 1, _ :: rest => findLoop fuel rest

def findVarMatches (cs : List Char) : List String :=
  findLoop (cs.length + 1) cs

mutual
/-- `substitute_vars_in_value`. Numbers are returned unchanged; a string
with `has_vars` runs the match loop over the matches found in its *original*
text and comes back with `has_vars = False`; a reference is validated
(no dot, identifier shape) and replaced by the recursively substituted value
of its referent — `NameError` when absent; lists and tables recurse
structurally. -/
def substitute_vars_in_value : Nat → VarTable → ConfigValue → Except Err ConfigValue
  | 0, _, _ => .error .fuelOut
  | _ + 1, _, .NumberValue q => .ok (.NumberValue q)
  | fuel + 1, t, .StringValue s hv =>
    if hv then do
      let r ← subst_matches fuel t (findVarMatches s.data) s
      .ok (.StringValue r false)
    else .ok (.StringValue s hv)
  | fuel + 1, t, .VarRefValue n =>
    if containsDot n then .error (.syntaxError none)
    else if !(isIdentName n) then .error (.syntaxError none)
    else
      match lookupVar t n with
      | some v => substitute_vars_in_value fuel t v
      | none => .error (.nameError n)
  | fuel + 1, t, .ListValue vs => do
    let vs2 ← subst_seq fuel t vs
    .ok (.ListValue vs2)
  | fuel + 1, t, .TableValue ts => do
    let ts2 ← subst_items fuel t ts
    .ok (.TableValue ts2)
/-- The `for var_name in matches` loop of the string branch: for each
captured name, reject dotted names and malformed identifiers
(`SyntaxError`, messages without a line), then replace every occurrence of
`$name$` with the referent's textual form, or raise `NameError`. -/
def subst_matches : Nat → VarTable → List String → String → Except Err String
  | 0, _, _, _ => .error .fuelOut
  | _ + 1, _, [], r => .ok r
  | fuel + 1, t, name :: rest, r =>
    if containsDot name then .error (.syntaxError none)
    else if !(isIdentName name) then .error (.syntaxError none)
    else
      match lookupVar t name with
      | some v => do
        let s ← get_string_value fuel t v
        subst_matches fuel t rest (replaceAll r ("$" ++ name ++ "$") s)
      | none => .error (.nameError name)
def subst_seq : Nat → VarTable → ValueSeq → Except Err ValueSeq
  | 0, _, _ => .error .fuelOut
  | _ + 1, _, .nil => .ok .nil
  | fuel + 1, t, .cons v rest => do
    let v2 ← substitute_vars_in_value fuel t v
    let rest2 ← subst_seq fuel t rest
    .ok (.cons v2 rest2)
def subst_items : Nat → VarTable → TableItems → Except Err TableItems
  | 0, _, _ => .error .fuelOut
  | _ + 1, _, .nil => .ok .nil
  | fuel + 1, t, .cons k v rest => do
    let v2 ← substitute_vars_in_value fuel t v
    let rest2 ← subst_items fuel t rest
    .ok (.cons k v2 rest2)
end

/-- The iteration of `process_variable_substitution`: Python iterates
`self.variables.items()` in order and assigns each substituted value back
into the dict *during* the iteration, so each step sees the earlier entries
already substituted. Keys are unique, so assigning to the current key
updates the entry at the current position. -/
def subst_loop : Nat → VarTable → VarTable → Except Err VarTable
  | _, done, [] => .ok done
  | fuel, done, (k, v) :: todo => do
    let v2 ← substitute_vars_in_value fuel (done ++ (k, v) :: todo) v
    subst_loop fuel (done ++ [(k, v2)]) todo

/-- `process_variable_substitution`. -/
def process_variable_substitution (fuel : Nat) (table : VarTable) : Except Err VarTable :=
  subst_loop fuel [] table

mutual
/-- `convert_value`: numbers, strings, lists and tables materialize; any
other value (only `VarRefValue` can occur) hits the untyped fallthrough
`return value` and is passed through raw. -/
def convert_value : ConfigValue → Plain
  | .NumberValue q => .num q
  | .StringValue s _ => .str s
  | .ListValue vs => .arr (convert_seq vs)
  | .TableValue ts => .obj (convert_items ts)
  | .VarRefValue n => .raw (.VarRefValue n)
def convert_seq : ValueSeq → PlainSeq
  | .nil => .nil
  | .cons v rest => .cons (convert_value v) (convert_seq rest)
def convert_items : TableItems → PlainMap
  | .nil => .nil
  | .cons k v rest => .cons k (convert_value v) (convert_items rest)
end

/-- `convert_variables`. -/
def convert_variables (t : VarTable) : List (String × Plain) :=
  t.map (fun p => (p.1, convert_value p.2))

/-- `ConfigParser.parse`: tokenize (from the instance's current line), scan
declarations, substitute, convert. Returns the result together with the
instance state after the call (the substituted variable table and the line
counter are *not* reset — they are the instance's fields). -/
def parse (fuel : Nat) (st : PState) (text : String) :
    Except Err (List (String × Plain) × PState) := do
  let (toks, endLine) ← tokenize text st.current_line
  let vars ← parse_loop fuel toks st.vars
  let vars2 ← process_variable_substitution fuel vars
  .ok (convert_variables vars2, ⟨vars2, endLine⟩)

end ConfigParser

/-- `parse_config_to_json`: a fresh `ConfigParser()` and one `parse` call. -/
def parse_config_to_json (fuel : Nat) (text : String) :
    Except Err (List (String × Plain)) :=
  (ConfigParser.parse fuel ConfigParser.init text).map Prod.fst

mutual
/-- No `VarRefValue` occurs anywhere in the value tree. -/
def noRefValue : ConfigValue → Bool
  | .NumberValue _ => true
  | .StringValue _ _ => true
  | .VarRefValue _ => false
  | .ListValue vs => noRefSeq vs
  | .TableValue ts => noRefItems ts
def noRefSeq : ValueSeq → Bool
  | .nil => true
  | .cons v rest => noRefValue v && noRefSeq rest
def noRefItems : TableItems → Bool
  | .nil => true
  | .cons _ v rest => noRefValue v && noRefItems rest
end

mutual
/-- No raw (unconverted) `ConfigValue` occurs anywhere in the materialized
tree — in particular no `VarRefValue`, the only value `convert_value`
passes through raw. -/
def noRawPlain : Plain → Bool
  | .num _ => true
  | .str _ => true
  | .arr l => noRawSeq l
  | .obj m => noRawMap m
  | .raw _ => false
def noRawSeq : PlainSeq → Bool
  | .nil => true
  | .cons v rest => noRawPlain v && noRawSeq rest
def noRawMap : PlainMap → Bool
  | .nil => true
  | .cons _ v rest => noRawPlain v && noRawMap rest
end

/-- No raw value anywhere in a result mapping. -/
def resultNoRaw (m : List (String × Plain)) : Bool :=
  m.all (fun p => noRawPlain p.2)

/-- The string contains a `$name$` span (dollar, identifier, dollar) that
the resolver's own pattern would match: an unresolved reference. -/
def containsUnresolvedRef (s : String) : Bool :=
  (ConfigParser.findVarMatches s.data).any isIdentName

theorem exceptBind_ok {α β : Type} {x : Except Err α} {g : α → Except Err β} {b : β}
    (h : (x >>= g) = .ok b) : ∃ a, x = .ok a ∧ g a = .ok b := by
  cases x with
  | error e => simp [Bind.bind, Except.bind] at h
  | ok a => exact ⟨a, rfl, by simpa [Bind.bind, Except.bind] using h⟩

namespace ConfigParser

theorem substitute_no_ref :
    ∀ fuel : Nat,
      (∀ t v w, substitute_vars_in_value fuel t v = .ok w → noRefValue w = true) ∧
      (∀ t vs ws, subst_seq fuel t vs = .ok ws → noRefSeq ws = true) ∧
      (∀ t ts ws, subst_items fuel t ts = .ok ws → noRefItems ws = true) := by
  intro fuel
  induction fuel with
  | zero =>
    refine ⟨fun t v w h => ?_, fun t vs ws h => ?_, fun t ts ws h => ?_⟩ <;>
      simp [substitute_vars_in_value, subst_seq, subst_items] at h
  | succ f ih =>
    obtain ⟨ihv, ihs, ihi⟩ := ih
    refine ⟨fun t v w h => ?_, fun t vs ws h => ?_, fun t ts ws h => ?_⟩
    · cases v with
      | NumberValue q =>
        simp only [substitute_vars_in_value] at h
        cases h
        rfl
      | StringValue s hv =>
        cases hv with
        | true =>
          simp only [substitute_vars_in_value, if_pos] at h
          obtain ⟨r, _, h2⟩ := exceptBind_ok h
          cases h2
          rfl
        | false =>
          simp only [substitute_vars_in_value, if_neg] at h
          cases h
          rfl
      | VarRefValue n =>
        simp only [substitute_vars_in_value] at h
        by_cases hd : containsDot n = true
        · simp [hd] at h
        · simp only [hd, if_neg, Bool.false_eq_true, not_false_eq_true, if_false] at h
          by_cases hi : isIdentName n = true
          · simp only [hi, Bool.not_true, Bool.false_eq_true, if_false] at h
            cases hl : lookupVar t n with
            | some v' => rw [hl] at h; exact ihv t v' w h
            | none => rw [hl] at h; cases h
          · simp [Bool.not_eq_true] at hi
            simp [hi] at h
      | ListValue vs =>
        simp only [substitute_vars_in_value] at h
        obtain ⟨vs2, h1, h2⟩ := exceptBind_ok h
        cases h2
        simpa [noRefValue] using ihs t vs vs2 h1
      | TableValue ts =>
        simp only [substitute_vars_in_value] at h
        obtain ⟨ts2, h1, h2⟩ := exceptBind_ok h
        cases h2
        simpa [noRefValue] using ihi t ts ts2 h1
    · cases vs with
      | nil =>
        simp only [subst_seq] at h
        cases h
        rfl
      | cons v rest =>
        simp only [subst_seq] at h
        obtain ⟨v2, h1, h2⟩ := exceptBind_ok h
        obtain ⟨rest2, h3, h4⟩ := exceptBind_ok h2
        cases h4
        simp only [noRefSeq, Bool.and_eq_true]
        exact ⟨ihv t v v2 h1, ihs t rest rest2 h3⟩
    · cases ts with
      | nil =>
        simp only [subst_items] at h
        cases h
        rfl
      | cons k v rest =>
        simp only [subst_items] at h
        obtain ⟨v2, h1, h2⟩ := exceptBind_ok h
        obtain ⟨rest2, h3, h4⟩ := exceptBind_ok h2
        cases h4
        simp only [noRefItems, Bool.and_eq_true]
        exact ⟨ihv t v v2 h1, ihi t rest rest2 h3⟩

theorem subst_loop_no_ref :
    ∀ (todo : VarTable) (fuel : Nat) (done out : VarTable),
      (∀ p ∈ done, noRefValue p.2 = true) →
      subst_loop fuel done todo = .ok out →
      ∀ p ∈ out, noRefValue p.2 = true := by
  intro todo
  induction todo with
  | nil =>
    intro fuel done out hdone h
    simp only [subst_loop] at h
    cases h
    exact hdone
  | cons kv rest ih =>
    intro fuel done out hdone h
    obtain ⟨k, v⟩ := kv
    simp only [subst_loop] at h
    obtain ⟨v2, h1, h2⟩ := exceptBind_ok h
    refine ih fuel (done ++ [(k, v2)]) out ?_ h2
    intro p hp
    rcases List.mem_append.mp hp with hp1 | hp2
    · exact hdone p hp1
    · rcases List.mem_singleton.mp hp2 with rfl
      exact (substitute_no_ref fuel).1 _ v v2 h1

mutual
theorem convert_value_no_raw (v : ConfigValue) (h : noRefValue v = true) :
    noRawPlain (convert_value v) = true := by
  cases v with
  | NumberValue q => rfl
  | StringValue s hv => rfl
  | VarRefValue n => simp [noRefValue] at h
  | ListValue vs =>
    simpa [convert_value, noRawPlain] using
      convert_seq_no_raw vs (by simpa [noRefValue] using h)
  | TableValue ts =>
    simpa [convert_value, noRawPlain] using
      convert_items_no_raw ts (by simpa [noRefValue] using h)
theorem convert_seq_no_raw (vs : ValueSeq) (h : noRefSeq vs = true) :
    noRawSeq (convert_seq vs) = true := by
  cases vs with
  | nil => rfl
  | cons v rest =>
    simp only [noRefSeq, Bool.and_eq_true] at h
    simp only [convert_seq, noRawSeq, Bool.and_eq_true]
    exact ⟨convert_value_no_raw v h.1, convert_seq_no_raw rest h.2⟩
theorem convert_items_no_raw (ts : TableItems) (h : noRefItems ts = true) :
    noRawMap (convert_items ts) = true := by
  cases ts with
  | nil => rfl
  | cons k v rest =>
    simp only [noRefItems, Bool.and_eq_true] at h
    simp only [convert_items, noRawMap, Bool.and_eq_true]
    exact ⟨convert_value_no_raw v h.1, convert_items_no_raw rest h.2⟩
end

theorem convert_variables_no_raw (t : VarTable)
    (h : ∀ p ∈ t, noRefValue p.2 = true) :
    resultNoRaw (convert_variables t) = true := by
  induction t with
  | nil => rfl
  | cons kv rest ih =>
    simp only [convert_variables, List.map_cons, resultNoRaw, List.all_cons,
      Bool.and_eq_true]
    refine ⟨convert_value_no_raw kv.2 (h kv (List.mem_cons_self _ _)), ?_⟩
    simpa [resultNoRaw, convert_variables] using
      ih (fun p hp => h p (List.mem_cons_of_mem _ hp))

theorem parse_ok_no_raw (fuel : Nat) (st : PState) (text : String)
    (m : List (String × Plain)) (st2 : PState)
    (h : parse fuel st text = .ok (m, st2)) : resultNoRaw m = true := by
  simp only [parse] at h
  obtain ⟨⟨toks, endLine⟩, h1, h2⟩ := exceptBind_ok h
  obtain ⟨vars, h3, h4⟩ := exceptBind_ok h2
  obtain ⟨vars2, h5, h6⟩ := exceptBind_ok h4
  obtain ⟨rfl, -⟩ := Prod.mk.injEq .. ▸ (Except.ok.injEq .. ▸ h6 :)
  exact convert_variables_no_raw vars2
    (subst_loop_no_ref vars fuel [] vars2 (by intro p hp; cases hp) h5)

end ConfigParser

namespace ConfigParser

theorem tokenizeFuel_nil (f : Nat) (line : Nat) :
    tokenizeFuel f [] line = .ok ([], line) := by
  cases f <;> rfl

theorem bool_eq_false_of (b : Bool) (h : b = true → False) : b = false := by
  cases b
  · rfl
  · exact absurd rfl h

theorem beq_eq_false_of_toNat_ne {c d : Char} (h : c.toNat ≠ d.toNat) :
    (c == d) = false :=
  bool_eq_false_of _ (fun hb => h (congrArg Char.toNat (eq_of_beq hb)))

theorem isDigitChar_bounds {c : Char} (h : isDigitChar c = true) :
    48 ≤ c.toNat ∧ c.toNat ≤ 57 := by
  simpa [isDigitChar] using h

theorem isAlphaChar_bounds {c : Char} (h : isAlphaChar c = true) :
    65 ≤ c.toNat ∧ c.toNat ≤ 122 := by
  have h2 : (65 ≤ c.toNat ∧ c.toNat ≤ 90) ∨ (97 ≤ c.toNat ∧ c.toNat ≤ 122) := by
    simpa [isAlphaChar] using h
  omega

theorem isIdentChar_bounds {c : Char} (h : isIdentChar c = true) :
    48 ≤ c.toNat ∧ c.toNat ≤ 122 := by
  have h2 : (((65 ≤ c.toNat ∧ c.toNat ≤ 90) ∨ (97 ≤ c.toNat ∧ c.toNat ≤ 122)) ∨
      (48 ≤ c.toNat ∧ c.toNat ≤ 57)) ∨ c.toNat = 95 := by
    simpa [isIdentChar, isAlphaChar, isDigitChar] using h
  omega

theorem isSpaceChar_eq_false {c : Char} (h : 33 ≤ c.toNat) : isSpaceChar c = false := by
  have h1 : (c == ' ') = false := beq_eq_false_of_toNat_ne (show c.toNat ≠ 32 by omega)
  have h2 : (c == '\t') = false := beq_eq_false_of_toNat_ne (show c.toNat ≠ 9 by omega)
  have h3 : (c == '\n') = false := beq_eq_false_of_toNat_ne (show c.toNat ≠ 10 by omega)
  have h4 : (c == '\r') = false := beq_eq_false_of_toNat_ne (show c.toNat ≠ 13 by omega)
  have h5 : (c == '\x0b') = false := beq_eq_false_of_toNat_ne (show c.toNat ≠ 11 by omega)
  have h6 : (c == '\x0c') = false := beq_eq_false_of_toNat_ne (show c.toNat ≠ 12 by omega)
  simp [isSpaceChar, h1, h2, h3, h4, h5, h6]

theorem isDigitChar_eq_false_of_bounds {c : Char}
    (h : c.toNat < 48 ∨ 57 < c.toNat) : isDigitChar c = false :=
  bool_eq_false_of _ (fun hd => by obtain ⟨h1, h2⟩ := isDigitChar_bounds hd; omega)

theorem isAlphaChar_eq_false_of_bounds {c : Char}
    (h : c.toNat < 65 ∨ 122 < c.toNat ∨ (90 < c.toNat ∧ c.toNat < 97)) :
    isAlphaChar c = false :=
  bool_eq_false_of _ (fun ha => by
    have h2 : (65 ≤ c.toNat ∧ c.toNat ≤ 90) ∨ (97 ≤ c.toNat ∧ c.toNat ≤ 122) := by
      simpa [isAlphaChar] using ha
    omega)

/-- The head of the list (if any) does not satisfy `p`: the scan of `p`
stops exactly at the boundary. -/
def headNotSat (p : Char → Bool) : List Char → Prop
  | [] => True
  | c :: _ => p c = false

theorem takeWhile_append_all {p : Char → Bool} :
    ∀ (l r : List Char), (∀ a ∈ l, p a = true) → headNotSat p r →
      (l ++ r).takeWhile p = l := by
  intro l
  induction l with
  | nil =>
    intro r _ hr
    cases r with
    | nil => rfl
    | cons c cs =>
      have hc : p c = false := hr
      simp [List.takeWhile_cons, hc]
  | cons a l ih =>
    intro r hl hr
    have ha : p a = true := hl a (List.mem_cons_self a l)
    simp [List.takeWhile_cons, ha,
      ih r (fun b hb => hl b (List.mem_cons_of_mem a hb)) hr]

theorem dropWhile_append_all {p : Char → Bool} :
    ∀ (l r : List Char), (∀ a ∈ l, p a = true) → headNotSat p r →
      (l ++ r).dropWhile p = r := by
  intro l
  induction l with
  | nil =>
    intro r _ hr
    cases r with
    | nil => rfl
    | cons c cs =>
      have hc : p c = false := hr
      simp [List.dropWhile_cons, hc]
  | cons a l ih =>
    intro r hl hr
    have ha : p a = true := hl a (List.mem_cons_self a l)
    simp [List.dropWhile_cons, ha,
      ih r (fun b hb => hl b (List.mem_cons_of_mem a hb)) hr]

theorem contains_eq_false {a : Char} :
    ∀ {l : List Char}, (∀ c ∈ l, (a == c) = false) → l.contains a = false := by
  intro l
  induction l with
  | nil => intro _; rfl
  | cons b bs ih =>
    intro h
    have hb : (a == b) = false := h b (List.mem_cons_self b bs)
    have hrest := ih (fun c hc => h c (List.mem_cons_of_mem b hc))
    simp only [List.contains_cons, hb, Bool.false_or]
    exact hrest

theorem matchNumber_none_of_head (c : Char) (l : List Char)
    (hplus : (c == '+') = false) (hminus : (c == '-') = false)
    (hd : isDigitChar c = false) : matchNumber (c :: l) = none := by
  simp [matchNumber, hplus, hminus, List.takeWhile_cons, hd]

theorem matchNumber_literal (d1 d2 cs : List Char)
    (h1 : d1 ≠ []) (h1d : ∀ a ∈ d1, isDigitChar a = true)
    (h2 : d2 ≠ []) (h2d : ∀ a ∈ d2, isDigitChar a = true)
    (hcs : headNotSat isDigitChar cs) :
    matchNumber (d1 ++ '.' :: (d2 ++ cs)) = some (floatOfLit none d1 d2, cs) := by
  obtain ⟨a, d1', rfl⟩ : ∃ a d1', d1 = a :: d1' := by
    cases d1 with
    | nil => exact absurd rfl h1
    | cons a d1' => exact ⟨a, d1', rfl⟩
  have ha := isDigitChar_bounds (h1d a (List.mem_cons_self a d1'))
  have hplus : (a == '+') = false := beq_eq_false_of_toNat_ne (show a.toNat ≠ 43 by omega)
  have hminus : (a == '-') = false := beq_eq_false_of_toNat_ne (show a.toNat ≠ 45 by omega)
  have hdot : headNotSat isDigitChar ('.' :: (d2 ++ cs)) :=
    isDigitChar_eq_false_of_bounds (by left; decide)
  have htake1 := takeWhile_append_all (p := isDigitChar) (a :: d1') ('.' :: (d2 ++ cs)) h1d hdot
  have hdrop1 := dropWhile_append_all (p := isDigitChar) (a :: d1') ('.' :: (d2 ++ cs)) h1d hdot
  have htake2 := takeWhile_append_all (p := isDigitChar) d2 cs h2d hcs
  have hdrop2 := dropWhile_append_all (p := isDigitChar) d2 cs h2d hcs
  have h2e : d2.isEmpty = false := by cases d2 with
    | nil => exact absurd rfl h2
    | cons b bs => rfl
  simp only [matchNumber, hplus, hminus, Bool.or_self, Bool.false_or, if_neg,
    Bool.false_eq_true, not_false_eq_true, List.cons_append] at *
  simp [matchNumber, hplus, hminus, htake1, hdrop1, htake2, hdrop2, h2e]

theorem matchNumber_literal_sgn (s : Char) (d1 d2 cs : List Char)
    (hs : s = '+' ∨ s = '-')
    (h1 : d1 ≠ []) (h1d : ∀ a ∈ d1, isDigitChar a = true)
    (h2 : d2 ≠ []) (h2d : ∀ a ∈ d2, isDigitChar a = true)
    (hcs : headNotSat isDigitChar cs) :
    matchNumber (s :: (d1 ++ '.' :: (d2 ++ cs))) = some (floatOfLit (some s) d1 d2, cs) := by
  have hsgn : ((s == '+') || (s == '-')) = true := by
    rcases hs with rfl | rfl <;> decide
  have hdot : headNotSat isDigitChar ('.' :: (d2 ++ cs)) :=
    isDigitChar_eq_false_of_bounds (by left; decide)
  have htake1 := takeWhile_append_all (p := isDigitChar) d1 ('.' :: (d2 ++ cs)) h1d hdot
  have hdrop1 := dropWhile_append_all (p := isDigitChar) d1 ('.' :: (d2 ++ cs)) h1d hdot
  have htake2 := takeWhile_append_all (p := isDigitChar) d2 cs h2d hcs
  have hdrop2 := dropWhile_append_all (p := isDigitChar) d2 cs h2d hcs
  have h1e : d1.isEmpty = false := by cases d1 with
    | nil => exact absurd rfl h1
    | cons b bs => rfl
  have h2e : d2.isEmpty = false := by cases d2 with
    | nil => exact absurd rfl h2
    | cons b bs => rfl
  simp [matchNumber, hsgn, htake1, hdrop1, htake2, hdrop2, h1e, h2e]

theorem tok_ident_step (f : Nat) (c : Char) (xs cs : List Char) (line : Nat)
    (hc : isAlphaChar c = true)
    (hxs : ∀ a ∈ xs, isIdentChar a = true)
    (hcs : headNotSat isIdentChar cs) :
    tokenizeFuel (f + 1) (c :: (xs ++ cs)) line =
      consTok (identTokenFor (String.mk (c :: xs)) line) (tokenizeFuel f cs line) := by
  obtain ⟨hlo, hhi⟩ := isAlphaChar_bounds hc
  have hsp : isSpaceChar c = false := isSpaceChar_eq_false (by omega)
  have hcolon : (c == ':') = false := beq_eq_false_of_toNat_ne (show c.toNat ≠ 58 by omega)
  have hbrace : (c == '{') = false := beq_eq_false_of_toNat_ne (show c.toNat ≠ 123 by omega)
  have hat : (c == '@') = false := beq_eq_false_of_toNat_ne (show c.toNat ≠ 64 by omega)
  have hplus : (c == '+') = false := beq_eq_false_of_toNat_ne (show c.toNat ≠ 43 by omega)
  have hminus : (c == '-') = false := beq_eq_false_of_toNat_ne (show c.toNat ≠ 45 by omega)
  have hdig : isDigitChar c = false := isDigitChar_eq_false_of_bounds (by omega)
  have hnum := matchNumber_none_of_head c (xs ++ cs) hplus hminus hdig
  have htake := takeWhile_append_all (p := isIdentChar) xs cs hxs hcs
  have hdrop := dropWhile_append_all (p := isIdentChar) xs cs hxs hcs
  simp [tokenizeFuel, hsp, hcolon, hbrace, hat, hnum, hc, htake, hdrop]

theorem tok_number_step (f : Nat) (sgn d1 d2 cs : List Char) (line : Nat)
    (hsgn : sgn = [] ∨ sgn = ['+'] ∨ sgn = ['-'])
    (h1 : d1 ≠ []) (h1d : ∀ a ∈ d1, isDigitChar a = true)
    (h2 : d2 ≠ []) (h2d : ∀ a ∈ d2, isDigitChar a = true)
    (hcs : headNotSat isDigitChar cs) :
    tokenizeFuel (f + 1) (sgn ++ (d1 ++ '.' :: (d2 ++ cs))) line =
      consTok (.number (floatOfLit sgn.head? d1 d2) line) (tokenizeFuel f cs line) := by
  rcases hsgn with rfl | rfl | rfl
  · obtain ⟨a, d1', rfl⟩ : ∃ a d1', d1 = a :: d1' := by
      cases d1 with
      | nil => exact absurd rfl h1
      | cons a d1' => exact ⟨a, d1', rfl⟩
    obtain ⟨hlo, hhi⟩ := isDigitChar_bounds (h1d a (List.mem_cons_self a d1'))
    have hsp : isSpaceChar a = false := isSpaceChar_eq_false (by omega)
    have hcolon : (a == ':') = false := beq_eq_false_of_toNat_ne (show a.toNat ≠ 58 by omega)
    have hbrace : (a == '{') = false := beq_eq_false_of_toNat_ne (show a.toNat ≠ 123 by omega)
    have hnum := matchNumber_literal (a :: d1') d2 cs h1 h1d h2 h2d hcs
    simp only [List.cons_append] at hnum
    simp [tokenizeFuel, hsp, hcolon, hbrace, hnum]
  · have hnum := matchNumber_literal_sgn '+' d1 d2 cs (Or.inl rfl) h1 h1d h2 h2d hcs
    have hsp : isSpaceChar '+' = false := by decide
    simp [tokenizeFuel, hnum, hsp]
  · have hnum := matchNumber_literal_sgn '-' d1 d2 cs (Or.inr rfl) h1 h1d h2 h2d hcs
    have hsp : isSpaceChar '-' = false := by decide
    simp [tokenizeFuel, hnum, hsp]

theorem tok_string_step (f : Nat) (content cs : List Char) (line : Nat)
    (hq : ∀ a ∈ content, (a == '"') = false) :
    tokenizeFuel (f + 1) ('@' :: '"' :: (content ++ '"' :: cs)) line =
      consTok (.str (String.mk content) line) (tokenizeFuel f cs line) := by
  have hnum : matchNumber ('@' :: ('"' :: (content ++ '"' :: cs))) = none :=
    matchNumber_none_of_head _ _ (by decide) (by decide) (by decide)
  have hp : ∀ a ∈ content, (fun a => !(a == '"')) a = true := by
    intro a ha
    simp [hq a ha]
  have hns : headNotSat (fun a => !(a == '"')) ('"' :: cs) := by
    show (!('"' == '"')) = false
    decide
  have htake := takeWhile_append_all (p := fun a => !(a == '"')) content ('"' :: cs) hp hns
  have hdrop := dropWhile_append_all (p := fun a => !(a == '"')) content ('"' :: cs) hp hns
  have hsp : isSpaceChar '@' = false := by decide
  have hh : headIs ('"' :: (content ++ '"' :: cs)) '"' = true := rfl
  simp [tokenizeFuel, hnum, htake, hdrop, hsp, hh]

theorem matchNumber_digits_no_dot (d : List Char)
    (hd : ∀ a ∈ d, isDigitChar a = true) (hne : d ≠ []) :
    matchNumber (d ++ [';']) = none := by
  obtain ⟨a, d', rfl⟩ : ∃ a d', d = a :: d' := by
    cases d with
    | nil => exact absurd rfl hne
    | cons a d' => exact ⟨a, d', rfl⟩
  obtain ⟨hlo, hhi⟩ := isDigitChar_bounds (hd a (List.mem_cons_self a d'))
  have hplus : (a == '+') = false := beq_eq_false_of_toNat_ne (show a.toNat ≠ 43 by omega)
  have hminus : (a == '-') = false := beq_eq_false_of_toNat_ne (show a.toNat ≠ 45 by omega)
  have hsemi : headNotSat isDigitChar [';'] := by
    show isDigitChar ';' = false
    decide
  have htake := takeWhile_append_all (p := isDigitChar) (a :: d') [';'] hd hsemi
  have hdrop := dropWhile_append_all (p := isDigitChar) (a :: d') [';'] hd hsemi
  simp only [List.cons_append] at htake hdrop
  simp [matchNumber, hplus, hminus, htake, hdrop]

theorem tok_digit_fail (f : Nat) (c : Char) (l : List Char) (line : Nat)
    (hc : isDigitChar c = true) (hnum : matchNumber (c :: l) = none) :
    tokenizeFuel (f + 1) (c :: l) line = .error (.syntaxError (some line)) := by
  obtain ⟨hlo, hhi⟩ := isDigitChar_bounds hc
  have hsp : isSpaceChar c = false := isSpaceChar_eq_false (by omega)
  have hcolon : (c == ':') = false := beq_eq_false_of_toNat_ne (show c.toNat ≠ 58 by omega)
  have hbrace : (c == '{') = false := beq_eq_false_of_toNat_ne (show c.toNat ≠ 123 by omega)
  have hat : (c == '@') = false := beq_eq_false_of_toNat_ne (show c.toNat ≠ 64 by omega)
  have halpha : isAlphaChar c = false := isAlphaChar_eq_false_of_bounds (by omega)
  have hpunct : isPunctChar c = false := by
    have p1 : (c == '(') = false := beq_eq_false_of_toNat_ne (show c.toNat ≠ 40 by omega)
    have p2 : (c == ')') = false := beq_eq_false_of_toNat_ne (show c.toNat ≠ 41 by omega)
    have p3 : (c == '[') = false := beq_eq_false_of_toNat_ne (show c.toNat ≠ 91 by omega)
    have p4 : (c == ']') = false := beq_eq_false_of_toNat_ne (show c.toNat ≠ 93 by omega)
    have p5 : (c == ',') = false := beq_eq_false_of_toNat_ne (show c.toNat ≠ 44 by omega)
    have p6 : (c == '=') = false := beq_eq_false_of_toNat_ne (show c.toNat ≠ 61 by omega)
    have p7 : (c == '$') = false := beq_eq_false_of_toNat_ne (show c.toNat ≠ 36 by omega)
    have p8 : (c == ';') = false := beq_eq_false_of_toNat_ne (show c.toNat ≠ 59 by omega)
    simp [isPunctChar, p1, p2, p3, p4, p5, p6, p7, p8]
  simp [tokenizeFuel, hsp, hcolon, hbrace, hnum, hat, halpha, hpunct]

theorem findLoop_nil (f : Nat) : findLoop f [] = [] := by
  cases f <;> rfl

theorem findLoop_single (f : Nat) (xd : List Char) (hne : xd ≠ [])
    (hxd : ∀ a ∈ xd, refChar a = true) :
    findLoop (f + 1) ('$' :: (xd ++ ['$'])) = [String.mk xd] := by
  obtain ⟨a, xs, rfl⟩ : ∃ a xs, xd = a :: xs := by
    cases xd with
    | nil => exact absurd rfl hne
    | cons a xs => exact ⟨a, xs, rfl⟩
  have hns : headNotSat refChar ['$'] := by
    show refChar '$' = false
    decide
  have htake := takeWhile_append_all (p := refChar) (a :: xs) ['$'] hxd hns
  have hdrop := dropWhile_append_all (p := refChar) (a :: xs) ['$'] hxd hns
  simp only [List.cons_append] at htake hdrop
  simp [findLoop, htake, hdrop, findLoop_nil]

theorem findVarMatches_single (xd : List Char) (hne : xd ≠ [])
    (hxd : ∀ a ∈ xd, refChar a = true) :
    findVarMatches ('$' :: (xd ++ ['$'])) = [String.mk xd] := by
  show findLoop (('$' :: (xd ++ ['$'])).length + 1) ('$' :: (xd ++ ['$'])) = _
  have e : ('$' :: (xd ++ ['$'])).length + 1 = (xd.length + 2) + 1 := by
    simp only [List.length_cons, List.length_append, List.length_nil]
  rw [e]
  exact findLoop_single (xd.length + 2) xd hne hxd

theorem substitute_ref_undefined (f : Nat) (t : VarTable) (n : String)
    (hdot : containsDot n = false) (hid : isIdentName n = true)
    (hl : lookupVar t n = none) :
    substitute_vars_in_value (f + 1) t (.VarRefValue n) = .error (.nameError n) := by
  simp [substitute_vars_in_value, hdot, hid, hl]

theorem substitute_string_undefined (f : Nat) (t : VarTable) (x : String)
    (hne : x.data ≠ []) (hxd : ∀ a ∈ x.data, refChar a = true)
    (hdot : containsDot x = false) (hid : isIdentName x = true)
    (hl : lookupVar t x = none) :
    substitute_vars_in_value (f + 2) t
      (.StringValue (String.mk ('$' :: (x.data ++ ['$']))) true) =
      .error (.nameError x) := by
  have hfm : findVarMatches (String.mk ('$' :: (x.data ++ ['$']))).data = [x] := by
    show findVarMatches ('$' :: (x.data ++ ['$'])) = [x]
    rw [findVarMatches_single x.data hne hxd]
  have hm : subst_matches (f + 1) t [x]
      (String.mk ('$' :: (x.data ++ ['$']))) = .error (.nameError x) := by
    simp [subst_matches, hdot, hid, hl]
  simp [substitute_vars_in_value, hfm, hm, Bind.bind, Except.bind]

theorem parse_decomp (fuel : Nat) (text : String) (toks : List Token) (endLine : Nat)
    (vars vars2 : VarTable)
    (ht : tokenize text 1 = .ok (toks, endLine))
    (hp : parse_loop fuel toks [] = .ok vars)
    (hs : process_variable_substitution fuel vars = .ok vars2) :
    parse_config_to_json fuel text = .ok (convert_variables vars2) := by
  simp [parse_config_to_json, parse, init, ht, hp, hs, Bind.bind, Except.bind,
    Except.map]

theorem parse_decomp_subst_error (fuel : Nat) (text : String) (toks : List Token)
    (endLine : Nat) (vars : VarTable) (e : Err)
    (ht : tokenize text 1 = .ok (toks, endLine))
    (hp : parse_loop fuel toks [] = .ok vars)
    (hs : process_variable_substitution fuel vars = .error e) :
    parse_config_to_json fuel text = .error e := by
  simp [parse_config_to_json, parse, init, ht, hp, hs, Bind.bind, Except.bind,
    Except.map]

theorem parse_decomp_tok_error (fuel : Nat) (text : String) (e : Err)
    (ht : tokenize text 1 = .error e) :
    parse_config_to_json fuel text = .error e := by
  simp [parse_config_to_json, parse, init, ht, Bind.bind, Except.bind, Except.map]

theorem subst_loop_single_error (fuel : Nat) (k : String) (v : ConfigValue) (e : Err)
    (h : substitute_vars_in_value fuel [(k, v)] v = .error e) :
    subst_loop fuel [] [(k, v)] = .error e := by
  simp only [subst_loop, List.nil_append]
  rw [h]
  rfl

theorem isIdentName_parts {x : String} (hx : isIdentName x = true) :
    ∃ c xs, x.data = c :: xs ∧ isAlphaChar c = true ∧ ∀ a ∈ xs, isIdentChar a = true := by
  cases hd : x.data with
  | nil => simp [isIdentName, hd] at hx
  | cons c xs =>
    simp only [isIdentName, hd, Bool.and_eq_true, List.all_eq_true] at hx
    exact ⟨c, xs, rfl, hx.1, fun a ha => hx.2 a ha⟩

theorem isIdentName_all_ident {x : String} (hx : isIdentName x = true) :
    ∀ a ∈ x.data, isIdentChar a = true := by
  obtain ⟨c, xs, hd, hc, hxs⟩ := isIdentName_parts hx
  rw [hd]
  intro a ha
  rcases List.mem_cons.mp ha with rfl | ha2
  · simp [isIdentChar, hc]
  · exact hxs a ha2

theorem isIdentName_ne_nil {x : String} (hx : isIdentName x = true) : x.data ≠ [] := by
  obtain ⟨c, xs, hd, -, -⟩ := isIdentName_parts hx
  simp [hd]

theorem isIdentName_refChar {x : String} (hx : isIdentName x = true) :
    ∀ a ∈ x.data, refChar a = true := by
  intro a ha
  obtain ⟨h1, h2⟩ := isIdentChar_bounds (isIdentName_all_ident hx a ha)
  have hd1 : (a == '$') = false := beq_eq_false_of_toNat_ne (show a.toNat ≠ 36 by omega)
  have hd2 : (a == '\n') = false := beq_eq_false_of_toNat_ne (show a.toNat ≠ 10 by omega)
  simp [refChar, hd1, hd2]

theorem isIdentName_no_dot {x : String} (hx : isIdentName x = true) :
    containsDot x = false := by
  show x.data.contains '.' = false
  apply contains_eq_false
  intro c hc
  obtain ⟨h1, h2⟩ := isIdentChar_bounds (isIdentName_all_ident hx c hc)
  exact beq_eq_false_of_toNat_ne (show (46 : Nat) ≠ c.toNat by omega)

theorem identTokenFor_not_kw (x : String) (l : Nat)
    (h1 : x ≠ "var") (h2 : x ≠ "list") (h3 : x ≠ "table") :
    identTokenFor x l = .ident x l := by
  have b1 : (x == "var") = false := bool_eq_false_of _ (fun hb => h1 (eq_of_beq hb))
  have b2 : (x == "list") = false := bool_eq_false_of _ (fun hb => h2 (eq_of_beq hb))
  have b3 : (x == "table") = false := bool_eq_false_of _ (fun hb => h3 (eq_of_beq hb))
  simp [identTokenFor, b1, b2, b3]

theorem tokenize_ref_template (x : String) (hx : isIdentName x = true) :
    tokenize ("var y = $" ++ x ++ "$;") 1 =
      .ok ([.kwVar 1, .ident "y" 1, .punct '=' 1, .punct '$' 1,
            identTokenFor x 1, .punct '$' 1, .punct ';' 1], 1) := by
  obtain ⟨c, xs, hd, hc, hxs⟩ := isIdentName_parts hx
  have hdata : ("var y = $" ++ x ++ "$;").data =
      'v' :: 'a' :: 'r' :: ' ' :: 'y' :: ' ' :: '=' :: ' ' :: '$' ::
        (c :: (xs ++ ['$', ';'])) := by
    simp only [String.data_append, hd, List.append_assoc, List.cons_append]
    rfl
  show tokenizeFuel (("var y = $" ++ x ++ "$;").data.length + 1)
    (("var y = $" ++ x ++ "$;").data) 1 = _
  have hlen : ("var y = $" ++ x ++ "$;").data.length + 1 = (xs.length + 6) + 7 := by
    rw [hdata]
    simp only [List.length_cons, List.length_append, List.length_nil]
  rw [hlen, hdata]
  have hpre : ∀ (f : Nat) (rest : List Char),
      tokenizeFuel (f + 7)
        ('v' :: 'a' :: 'r' :: ' ' :: 'y' :: ' ' :: '=' :: ' ' :: '$' :: rest) 1 =
        consTok (.kwVar 1) (consTok (.ident "y" 1) (consTok (.punct '=' 1)
          (consTok (.punct '$' 1) (tokenizeFuel f rest 1)))) := fun f rest => rfl
  rw [hpre]
  rw [show (xs.length + 6 : Nat) = (xs.length + 5) + 1 from rfl]
  rw [tok_ident_step (xs.length + 5) c xs ['$', ';'] 1 hc hxs
    (by show isIdentChar '$' = false; decide)]
  rw [show String.mk (c :: xs) = x from String.ext (by rw [hd])]
  rw [show (xs.length + 5 : Nat) = (xs.length + 3) + 2 from rfl]
  have hsuf : ∀ (f : Nat), tokenizeFuel (f + 2) ('$' :: ';' :: []) 1 =
      consTok (.punct '$' 1) (consTok (.punct ';' 1) (tokenizeFuel f [] 1)) :=
    fun f => rfl
  rw [hsuf, tokenizeFuel_nil]
  rfl

theorem tokenize_ref_string_template (x : String) (hx : isIdentName x = true) :
    tokenize ("var y = @\"$" ++ x ++ "$\";") 1 =
      .ok ([.kwVar 1, .ident "y" 1, .punct '=' 1,
            .str (String.mk ('$' :: (x.data ++ ['$']))) 1, .punct ';' 1], 1) := by
  have hdata : ("var y = @\"$" ++ x ++ "$\";").data =
      'v' :: 'a' :: 'r' :: ' ' :: 'y' :: ' ' :: '=' :: ' ' :: '@' :: '"' ::
        (('$' :: (x.data ++ ['$'])) ++ ('"' :: [';'])) := by
    simp only [String.data_append, List.append_assoc, List.cons_append]
    rfl
  show tokenizeFuel (("var y = @\"$" ++ x ++ "$\";").data.length + 1)
    (("var y = @\"$" ++ x ++ "$\";").data) 1 = _
  have hlen : ("var y = @\"$" ++ x ++ "$\";").data.length + 1 =
      (x.data.length + 9) + 6 := by
    rw [hdata]
    simp only [List.length_cons, List.length_append, List.length_nil]
  rw [hlen, hdata]
  have hpre : ∀ (f : Nat) (rest : List Char),
      tokenizeFuel (f + 6)
        ('v' :: 'a' :: 'r' :: ' ' :: 'y' :: ' ' :: '=' :: ' ' :: rest) 1 =
        consTok (.kwVar 1) (consTok (.ident "y" 1)
          (consTok (.punct '=' 1) (tokenizeFuel f rest 1))) := fun f rest => rfl
  rw [show ('v' :: 'a' :: 'r' :: ' ' :: 'y' :: ' ' :: '=' :: ' ' :: '@' :: '"' ::
      (('$' :: (x.data ++ ['$'])) ++ ('"' :: [';'])) : List Char) =
      'v' :: 'a' :: 'r' :: ' ' :: 'y' :: ' ' :: '=' :: ' ' :: ('@' :: '"' ::
      (('$' :: (x.data ++ ['$'])) ++ ('"' :: [';']))) from rfl]
  rw [hpre]
  have hq : ∀ a ∈ ('$' :: (x.data ++ ['$'])), (a == '"') = false := by
    intro a ha
    rcases List.mem_cons.mp ha with rfl | ha2
    · decide
    · rcases List.mem_append.mp ha2 with ha3 | ha4
      · obtain ⟨h1, h2⟩ := isIdentChar_bounds (isIdentName_all_ident hx a ha3)
        exact beq_eq_false_of_toNat_ne (show a.toNat ≠ 34 by omega)
      · rcases List.mem_singleton.mp ha4 with rfl
        decide
  rw [show (x.data.length + 9 : Nat) = (x.data.length + 8) + 1 from rfl]
  rw [tok_string_step (x.data.length + 8) ('$' :: (x.data ++ ['$'])) [';'] 1 hq]
  rw [show (x.data.length + 8 : Nat) = (x.data.length + 7) + 1 from rfl]
  have hsemi : ∀ (f : Nat), tokenizeFuel (f + 1) (';' :: []) 1 =
      consTok (.punct ';' 1) (tokenizeFuel f [] 1) := fun f => rfl
  rw [hsemi, tokenizeFuel_nil]
  rfl

theorem tokenize_number_template (sgn d1 d2 : List Char)
    (hsgn : sgn = [] ∨ sgn = ['+'] ∨ sgn = ['-'])
    (h1 : d1 ≠ []) (h1d : ∀ a ∈ d1, isDigitChar a = true)
    (h2 : d2 ≠ []) (h2d : ∀ a ∈ d2, isDigitChar a = true) :
    tokenize ("var x = " ++ String.mk (sgn ++ (d1 ++ '.' :: d2)) ++ ";") 1 =
      .ok ([.kwVar 1, .ident "x" 1, .punct '=' 1,
            .number (floatOfLit sgn.head? d1 d2) 1, .punct ';' 1], 1) := by
  have hdata : ("var x = " ++ String.mk (sgn ++ (d1 ++ '.' :: d2)) ++ ";").data =
      'v' :: 'a' :: 'r' :: ' ' :: 'x' :: ' ' :: '=' :: ' ' ::
        (sgn ++ (d1 ++ '.' :: (d2 ++ [';']))) := by
    simp only [String.data_append, List.append_assoc, List.cons_append]
    rfl
  show tokenizeFuel
    (("var x = " ++ String.mk (sgn ++ (d1 ++ '.' :: d2)) ++ ";").data.length + 1)
    (("var x = " ++ String.mk (sgn ++ (d1 ++ '.' :: d2)) ++ ";").data) 1 = _
  have hlen : ("var x = " ++ String.mk (sgn ++ (d1 ++ '.' :: d2)) ++ ";").data.length + 1 =
      (sgn.length + (d1.length + (d2.length + 5))) + 6 := by
    rw [hdata]
    simp only [List.length_cons, List.length_append, List.length_nil]
    omega
  rw [hlen, hdata]
  have hpre : ∀ (f : Nat) (rest : List Char),
      tokenizeFuel (f + 6)
        ('v' :: 'a' :: 'r' :: ' ' :: 'x' :: ' ' :: '=' :: ' ' :: rest) 1 =
        consTok (.kwVar 1) (consTok (.ident "x" 1)
          (consTok (.punct '=' 1) (tokenizeFuel f rest 1))) := fun f rest => rfl
  rw [hpre]
  rw [show (sgn.length + (d1.length + (d2.length + 5)) : Nat) =
    (sgn.length + (d1.length + (d2.length + 4))) + 1 from rfl]
  rw [tok_number_step (sgn.length + (d1.length + (d2.length + 4))) sgn d1 d2 [';'] 1
    hsgn h1 h1d h2 h2d (by show isDigitChar ';' = false; decide)]
  rw [show (sgn.length + (d1.length + (d2.length + 4)) : Nat) =
    (sgn.length + (d1.length + (d2.length + 3))) + 1 from rfl]
  have hsemi : ∀ (f : Nat), tokenizeFuel (f + 1) (';' :: []) 1 =
      consTok (.punct ';' 1) (tokenizeFuel f [] 1) := fun f => rfl
  rw [hsemi, tokenizeFuel_nil]
  rfl

theorem tokenize_int_template (d : List Char) (hne : d ≠ [])
    (hd : ∀ a ∈ d, isDigitChar a = true) :
    tokenize ("var x = " ++ String.mk d ++ ";") 1 = .error (.syntaxError (some 1)) := by
  obtain ⟨a, d', rfl⟩ : ∃ a d', d = a :: d' := by
    cases d with
    | nil => exact absurd rfl hne
    | cons a d' => exact ⟨a, d', rfl⟩
  have hdata : ("var x = " ++ String.mk (a :: d') ++ ";").data =
      'v' :: 'a' :: 'r' :: ' ' :: 'x' :: ' ' :: '=' :: ' ' :: (a :: (d' ++ [';'])) := by
    simp only [String.data_append, List.append_assoc, List.cons_append]
    rfl
  show tokenizeFuel (("var x = " ++ String.mk (a :: d') ++ ";").data.length + 1)
    (("var x = " ++ String.mk (a :: d') ++ ";").data) 1 = _
  have hlen : ("var x = " ++ String.mk (a :: d') ++ ";").data.length + 1 =
      (d'.length + 5) + 6 := by
    rw [hdata]
    simp only [List.length_cons, List.length_append, List.length_nil]
  rw [hlen, hdata]
  have hpre : ∀ (f : Nat) (rest : List Char),
      tokenizeFuel (f + 6)
        ('v' :: 'a' :: 'r' :: ' ' :: 'x' :: ' ' :: '=' :: ' ' :: rest) 1 =
        consTok (.kwVar 1) (consTok (.ident "x" 1)
          (consTok (.punct '=' 1) (tokenizeFuel f rest 1))) := fun f rest => rfl
  rw [hpre]
  have hnum : matchNumber (a :: (d' ++ [';'])) = none := by
    have := matchNumber_digits_no_dot (a :: d') hd hne
    simpa [List.cons_append] using this
  rw [show (d'.length + 5 : Nat) = (d'.length + 4) + 1 from rfl]
  rw [tok_digit_fail (d'.length + 4) a (d' ++ [';']) 1
    (hd a (List.mem_cons_self a d')) hnum]
  rfl

end ConfigParser

/-- C1 (counterexample): the pipeline accepts
`var a = @"$b$"; var b = @"$c$x"; var c = @"Z";` and returns a mapping in
which `a` is the string `"$c$x"` — an unresolved `$name$` pattern survives,
because resolving `a` stringifies the *not yet substituted* text of the
later-declared `b` and the replacement result is never re-scanned. -/
theorem claim1_counterexample :
    parse_config_to_json 1000 "var a = @\"$b$\"; var b = @\"$c$x\"; var c = @\"Z\";" =
      .ok [("a", Plain.str "$c$x"), ("b", Plain.str "Zx"), ("c", Plain.str "Z")] ∧
    containsUnresolvedRef "$c$x" = true :=
  ⟨rfl, rfl⟩

/-- C1 (amended): for every input accepted by `parse_config_to_json` (any
fuel), the returned mapping contains no `VarRefValue` (no raw unconverted
value) anywhere in the tree; however, a string value may still contain an
unresolved `$name$` pattern when a string variable references a
later-declared string variable that itself embeds a reference (see the
counterexample). -/
theorem claim1_no_raw (fuel : Nat) (text : String) (m : List (String × Plain))
    (h : parse_config_to_json fuel text = .ok m) : resultNoRaw m = true := by
  unfold parse_config_to_json at h
  cases hp : ConfigParser.parse fuel ConfigParser.init text with
  | error e => rw [hp] at h; simp [Except.map] at h
  | ok p =>
    obtain ⟨m2, st2⟩ := p
    rw [hp] at h
    simp only [Except.map] at h
    cases h
    exact ConfigParser.parse_ok_no_raw fuel ConfigParser.init text m st2 hp

/-- C1 (witness): the amended theorem applied to the accepted input
`var a = 1.0;`. -/
theorem claim1_witness :
    parse_config_to_json 1000 "var a = 1.0;" = .ok [("a", Plain.num ⟨1, 0⟩)] ∧
    resultNoRaw [("a", Plain.num ⟨1, 0⟩)] = true :=
  ⟨rfl, claim1_no_raw 1000 "var a = 1.0;" [("a", Plain.num ⟨1, 0⟩)] rfl⟩

/-- C2: reference resolution is correct and type-preserving:
`var a = @"X"; var b = @"$a$";` materializes `b` to the string `"X"`, and
`var n = 5.0; var m = $n$;` materializes `m` to the float `5.0` itself
(`Plain.num`, not a stringified form). -/
theorem claim2_reference_resolution :
    parse_config_to_json 1000 "var a = @\"X\"; var b = @\"$a$\";" =
      .ok [("a", Plain.str "X"), ("b", Plain.str "X")] ∧
    parse_config_to_json 1000 "var n = 5.0; var m = $n$;" =
      .ok [("n", Plain.num ⟨5, 0⟩), ("m", Plain.num ⟨5, 0⟩)] :=
  ⟨rfl, rfl⟩

/-- C3: for every literal `[+-]?digits.digits` used as a declared value, the
materialized value is the numeric parse of that literal (`floatOfLit`, the
exact decimal value that models the `float64` parse); and for every
declaration whose value is a bare integer literal (digits with no decimal
point), the pipeline raises `SyntaxError` (at tokenization, so for any
fuel). -/
theorem claim3_number_literals :
    (∀ (sgn d1 d2 : List Char),
      (sgn = [] ∨ sgn = ['+'] ∨ sgn = ['-']) →
      d1 ≠ [] → (∀ a ∈ d1, isDigitChar a = true) →
      d2 ≠ [] → (∀ a ∈ d2, isDigitChar a = true) →
      parse_config_to_json 1000
          ("var x = " ++ String.mk (sgn ++ (d1 ++ '.' :: d2)) ++ ";") =
        .ok [("x", Plain.num (floatOfLit sgn.head? d1 d2))]) ∧
    (∀ (fuel : Nat) (d : List Char),
      d ≠ [] → (∀ a ∈ d, isDigitChar a = true) →
      parse_config_to_json fuel ("var x = " ++ String.mk d ++ ";") =
        .error (.syntaxError (some 1))) := by
  constructor
  · intro sgn d1 d2 hsgn h1 h1d h2 h2d
    have ht := ConfigParser.tokenize_number_template sgn d1 d2 hsgn h1 h1d h2 h2d
    exact ConfigParser.parse_decomp 1000 _ _ 1 _ _ ht rfl rfl
  · intro fuel d hne hd
    exact ConfigParser.parse_decomp_tok_error fuel _ _
      (ConfigParser.tokenize_int_template d hne hd)

/-- C3 (witness): the theorem applied to the literal `-1.5` (value `-15/10`)
and to the bare integer `10`. -/
theorem claim3_witness :
    parse_config_to_json 1000 ("var x = " ++ String.mk ['-', '1', '.', '5'] ++ ";") =
      .ok [("x", Plain.num ⟨-15, 1⟩)] ∧
    parse_config_to_json 1000 ("var x = " ++ String.mk ['1', '0'] ++ ";") =
      .error (.syntaxError (some 1)) := by
  constructor
  · exact claim3_number_literals.1 ['-'] ['1'] ['5'] (Or.inr (Or.inr rfl))
      (by decide) (by decide) (by decide) (by decide)
  · exact claim3_number_literals.2 1000 ['1', '0'] (by decide) (by decide)

/-- C4: every reference to a name never declared in the file — any
identifier `x` other than the sole declared variable `y` (and not a
keyword) — raises `NameError`, both as a standalone value reference
`var y = $x$;` and embedded in a string literal `var y = @"$x$";`. -/
theorem claim4_undefined_reference (x : String)
    (hx : isIdentName x = true)
    (hv : x ≠ "var") (hl : x ≠ "list") (ht : x ≠ "table") (hy : x ≠ "y") :
    parse_config_to_json 1000 ("var y = $" ++ x ++ "$;") = .error (.nameError x) ∧
    parse_config_to_json 1000 ("var y = @\"$" ++ x ++ "$\";") =
      .error (.nameError x) := by
  have hdot := ConfigParser.isIdentName_no_dot hx
  have hlook : ∀ v : ConfigValue, lookupVar [("y", v)] x = none := by
    intro v
    have hb : ("y" == x) = false :=
      ConfigParser.bool_eq_false_of _ (fun hb => hy ((eq_of_beq hb).symm))
    simp [lookupVar, hb]
  constructor
  · have htok := ConfigParser.tokenize_ref_template x hx
    rw [ConfigParser.identTokenFor_not_kw x 1 hv hl ht] at htok
    have hp : ConfigParser.parse_loop 1000
        [.kwVar 1, .ident "y" 1, .punct '=' 1, .punct '$' 1,
         .ident x 1, .punct '$' 1, .punct ';' 1] [] =
        .ok [("y", ConfigValue.VarRefValue x)] := rfl
    have hsub : ConfigParser.substitute_vars_in_value 1000
        [("y", ConfigValue.VarRefValue x)] (ConfigValue.VarRefValue x) =
        .error (.nameError x) :=
      ConfigParser.substitute_ref_undefined 999 _ x hdot hx (hlook _)
    have hs : ConfigParser.process_variable_substitution 1000
        [("y", ConfigValue.VarRefValue x)] = .error (.nameError x) :=
      ConfigParser.subst_loop_single_error 1000 "y" (ConfigValue.VarRefValue x) _ hsub
    exact ConfigParser.parse_decomp_subst_error 1000 _ _ 1 _ _ htok hp hs
  · have htok := ConfigParser.tokenize_ref_string_template x hx
    have hp : ConfigParser.parse_loop 1000
        [.kwVar 1, .ident "y" 1, .punct '=' 1,
         .str (String.mk ('$' :: (x.data ++ ['$']))) 1, .punct ';' 1] [] =
        .ok [("y", ConfigValue.StringValue
          (String.mk ('$' :: (x.data ++ ['$']))) true)] := rfl
    have hsub : ConfigParser.substitute_vars_in_value 1000
        [("y", ConfigValue.StringValue (String.mk ('$' :: (x.data ++ ['$']))) true)]
        (ConfigValue.StringValue (String.mk ('$' :: (x.data ++ ['$']))) true) =
        .error (.nameError x) :=
      ConfigParser.substitute_string_undefined 998 _ x (ConfigParser.isIdentName_ne_nil hx)
        (ConfigParser.isIdentName_refChar hx) hdot hx (hlook _)
    have hs : ConfigParser.process_variable_substitution 1000
        [("y", ConfigValue.StringValue (String.mk ('$' :: (x.data ++ ['$']))) true)] =
        .error (.nameError x) :=
      ConfigParser.subst_loop_single_error 1000 "y" _ _ hsub
    exact ConfigParser.parse_decomp_subst_error 1000 _ _ 1 _ _ htok hp hs

/-- C4 (witness): the theorem applied to the undeclared name `q`. -/
theorem claim4_witness :
    isIdentName "q" = true ∧
    parse_config_to_json 1000 ("var y = $" ++ "q" ++ "$;") = .error (.nameError "q") ∧
    parse_config_to_json 1000 ("var y = @\"$" ++ "q" ++ "$\";") =
      .error (.nameError "q") :=
  ⟨by decide,
   (claim4_undefined_reference "q" (by decide) (by decide) (by decide) (by decide)
     (by decide)).1,
   (claim4_undefined_reference "q" (by decide) (by decide) (by decide) (by decide)
     (by decide)).2⟩

/-- C5: a dotted reference `$a.b$` raises `SyntaxError` both standalone (the
tokenizer rejects the bare `.` as an unknown character) and embedded in a
string (the resolver rejects the dotted captured name), even though `a` is
declared and is a table with key `b`. -/
theorem claim5_dotted_reference :
    parse_config_to_json 1000 "var a = table([b = 1.0]); var x = $a.b$;" =
      .error (.syntaxError (some 1)) ∧
    parse_config_to_json 1000 "var a = table([b = 1.0]); var x = @\"$a.b$\";" =
      .error (.syntaxError none) :=
  ⟨rfl, rfl⟩

/-- C6 (counterexample): `var l = list(1.0,);` — a comma immediately
followed by `)` — parses *successfully* to `{l: [1.0]}`: after consuming the
comma the loop re-checks its `!= ')'` condition and exits, so no value is
demanded after the comma. -/
theorem claim6_counterexample :
    parse_config_to_json 1000 "var l = list(1.0,);" =
      .ok [("l", Plain.arr (.cons (.num ⟨1, 0⟩) .nil))] := rfl

/-- C6 (amended): a trailing comma before `)` is accepted:
`var l = list(1.0,);` parses successfully and materializes the same mapping
as `var l = list(1.0);`. -/
theorem claim6_trailing_comma_accepted :
    parse_config_to_json 1000 "var l = list(1.0,);" =
      .ok [("l", Plain.arr (.cons (.num ⟨1, 0⟩) .nil))] ∧
    parse_config_to_json 1000 "var l = list(1.0);" =
      .ok [("l", Plain.arr (.cons (.num ⟨1, 0⟩) .nil))] :=
  ⟨rfl, rfl⟩

/-- C7 (counterexample): `var t = table([];;` parses *successfully* to
`{t: {}}`: after `table ( [ ]` the parser advances past the next token
without checking that it is `)`, so the first `;` is silently skipped and
the second `;` terminates the declaration. -/
theorem claim7_counterexample :
    parse_config_to_json 1000 "var t = table([];;" = .ok [("t", Plain.obj .nil)] :=
  rfl

/-- C7 (amended): in the empty-table form the token after `table` `(` `[`
`]` is consumed without being checked: both the well-formed
`var t = table([]);` and the malformed `var t = table([];;` parse
successfully to `{t: {}}`. -/
theorem claim7_empty_table_skip :
    parse_config_to_json 1000 "var t = table([];;" = .ok [("t", Plain.obj .nil)] ∧
    parse_config_to_json 1000 "var t = table([]);" = .ok [("t", Plain.obj .nil)] :=
  ⟨rfl, rfl⟩

/-- C8: the parser compares token payloads, not kinds, at every required
punctuation position, so a string literal whose text is that single
character is accepted in its place: `var x = 1.0 @";"` (for `;`),
`var x @"=" 1.0;` (for `=`), `var l = list@"("1.0@")";` (for `(` and `)`)
and `var t = table(@"["a = 1.0@"]");` (for `[` and `]`) all parse
successfully. -/
theorem claim8_payload_tokens :
    parse_config_to_json 1000 "var x = 1.0 @\";\"" = .ok [("x", Plain.num ⟨1, 0⟩)] ∧
    parse_config_to_json 1000 "var x @\"=\" 1.0;" = .ok [("x", Plain.num ⟨1, 0⟩)] ∧
    parse_config_to_json 1000 "var l = list@\"(\"1.0@\")\";" =
      .ok [("l", Plain.arr (.cons (.num ⟨1, 0⟩) .nil))] ∧
    parse_config_to_json 1000 "var t = table(@\"[\"a = 1.0@\"]\");" =
      .ok [("t", Plain.obj (.cons "a" (.num ⟨1, 0⟩) .nil))] :=
  ⟨rfl, rfl, rfl, rfl⟩

/-- C9 (counterexample): after the multi-line block comment in
`"\x7b\x7b!\n!\x7d\x7d?"` the unknown character `?` sits on source line 2, but the
`SyntaxError` carries line 1 — the newline consumed inside the block
comment did not increment the line counter. -/
theorem claim9_counterexample :
    parse_config_to_json 1000 "\x7b\x7b!\n!\x7d\x7d?" = .error (.syntaxError (some 1)) := rfl

/-- C9 (amended): newlines skipped as whitespace increment the diagnostic
line counter (also the newline that terminates a `::` line comment, which
is left to the whitespace branch), but newlines consumed inside a block
comment `{{! ... !}}` or inside a string literal do not, so a
`SyntaxError` after a multi-line block comment or multi-line string carries
an undercounted line number. -/
theorem claim9_line_counting :
    parse_config_to_json 1000 "\n\n?" = .error (.syntaxError (some 3)) ∧
    parse_config_to_json 1000 "::a\n?" = .error (.syntaxError (some 2)) ∧
    parse_config_to_json 1000 "\x7b\x7b!\n!\x7d\x7d?" = .error (.syntaxError (some 1)) ∧
    parse_config_to_json 1000 "@\"\n\"?" = .error (.syntaxError (some 1)) :=
  ⟨rfl, rfl, rfl, rfl⟩

/-- C10 (counterexample): calling `parse("var a = 1.0;")` and then
`parse("var b = 2.0;")` on the same instance yields
`{a: 1.0, b: 2.0}` for the second call, while a fresh instance yields
`{b: 2.0}` — the two results differ, refuting the claim at these inputs. -/
theorem claim10_counterexample :
    ConfigParser.parse 1000 ConfigParser.init "var a = 1.0;" =
      .ok ([("a", Plain.num ⟨1, 0⟩)], ⟨[("a", ConfigValue.NumberValue ⟨1, 0⟩)], 1⟩) ∧
    (ConfigParser.parse 1000 ⟨[("a", ConfigValue.NumberValue ⟨1, 0⟩)], 1⟩
        "var b = 2.0;").map Prod.fst =
      .ok [("a", Plain.num ⟨1, 0⟩), ("b", Plain.num ⟨2, 0⟩)] ∧
    (ConfigParser.parse 1000 ConfigParser.init "var b = 2.0;").map Prod.fst =
      .ok [("b", Plain.num ⟨2, 0⟩)] ∧
    (Except.ok [("a", Plain.num ⟨1, 0⟩), ("b", Plain.num ⟨2, 0⟩)] :
        Except Err (List (String × Plain))) ≠
      .ok [("b", Plain.num ⟨2, 0⟩)] := by
  refine ⟨rfl, rfl, rfl, fun h => ?_⟩
  have h2 := Except.ok.inj h
  exact absurd (congrArg List.length h2) (by decide)

/-- C10 (amended): instance state *does* cross `parse` invocations:
`parse` never resets `self.variables` or `self.current_line`, so a second
call on the same instance returns the first call's bindings merged with its
own, and a persisted line counter shifts later diagnostics; only a fresh
instance (as `parse_config_to_json` constructs) is isolated. -/
theorem claim10_instance_state :
    ConfigParser.parse 1000 ConfigParser.init "var a = 1.0;\n" =
      .ok ([("a", Plain.num ⟨1, 0⟩)], ⟨[("a", ConfigValue.NumberValue ⟨1, 0⟩)], 2⟩) ∧
    (ConfigParser.parse 1000 ⟨[("a", ConfigValue.NumberValue ⟨1, 0⟩)], 2⟩
        "var b = 2.0;").map Prod.fst =
      .ok [("a", Plain.num ⟨1, 0⟩), ("b", Plain.num ⟨2, 0⟩)] ∧
    (ConfigParser.parse 1000 ConfigParser.init "var b = 2.0;").map Prod.fst =
      .ok [("b", Plain.num ⟨2, 0⟩)] ∧
    (ConfigParser.parse 1000 ⟨[], 2⟩ "?").map Prod.fst =
      .error (.syntaxError (some 2)) :=
  ⟨rfl, rfl, rfl, rfl⟩
